import Mathlib

/-!
Verification of the bounding-box layout engine of the coinmeme repository.

The development shallowly embeds the relevant Python functions:

* `src/fix_bounding_boxes.py`: `boxes_overlap`, `fix_overlapping_boxes` (the
  overlap resolver) and the out-of-bounds part of `analyze_meme_boxes`;
* `src/check_bounds.py`: `check_box_bounds`;
* `src/app.py`: `wrap_text`, `fit_text_to_bbox`, and the name-collision
  resolution loop of `save_new_template`.

Coordinates are modelled by `ℚ` (Python floats, read as exact real arithmetic).
`math.sqrt` is not available on `ℚ`, so the resolver is parametrised by a
function `sq : ℚ → ℚ` standing for `math.sqrt`; every theorem proved below
holds for an arbitrary such function (the resolver's clamping, termination,
idempotence and frame properties do not depend on the square root's values,
and the degenerate coincident-center case only needs `sq 0 = 0`, which is true
of `math.sqrt`).

A mapping of named boxes is modelled as an association list in insertion
order, matching the stable key order of a Python dict.
-/

/-- A text bounding box: `(x, y)` is the box **center**, in normalized
image coordinates. Mirrors the `{x, y, width, height}` dicts of
`src/fix_bounding_boxes.py`. -/
structure Box where
  x : ℚ
  y : ℚ
  width : ℚ
  height : ℚ
deriving DecidableEq, Repr

/-- Computes `box['x'] - box['width'] / 2` as done throughout the source. -/
def Box.left (b : Box) : ℚ := b.x - b.width / 2

/-- Computes `box['x'] + box['width'] / 2`. -/
def Box.right (b : Box) : ℚ := b.x + b.width / 2

/-- Computes `box['y'] - box['height'] / 2`. -/
def Box.top (b : Box) : ℚ := b.y - b.height / 2

/-- Computes `box['y'] + box['height'] / 2`. -/
def Box.bottom (b : Box) : ℚ := b.y + b.height / 2

/-- Embeds `boxes_overlap` from `src/fix_bounding_boxes.py` lines 12-27:
`not (box1_right <= box2_left or box2_right <= box1_left or
box1_bottom <= box2_top or box2_bottom <= box1_top)`. -/
def boxes_overlap (box1 box2 : Box) : Prop :=
  ¬(box1.right ≤ box2.left ∨ box2.right ≤ box1.left ∨
    box1.bottom ≤ box2.top ∨ box2.bottom ≤ box1.top)

instance (box1 box2 : Box) : Decidable (boxes_overlap box1 box2) := by
  unfold boxes_overlap; infer_instance

/-- A template's `bounding_boxes` mapping, in stable key order. -/
abbrev BoxMap := List (String × Box)

/-- The in-place clamp of `fix_overlapping_boxes` lines 107-116:
`box['x'] = max(min_x, min(max_x, box['x']))` and likewise for `y`. -/
def clampBox (box : Box) : Box :=
  { box with
    x := max (box.width / 2) (min (1 - box.width / 2) box.x),
    y := max (box.height / 2) (min (1 - box.height / 2) box.y) }

/-- Write box `b` back at position `i`, keeping the key (the Python code
mutates `fixed_boxes[name]` in place, so the key set never changes). -/
def setBox (s : BoxMap) (i : ℕ) (b : Box) : BoxMap :=
  match s[i]? with
  | some nb => s.set i (nb.1, b)
  | none => s

/-- The repulsion move of `fix_overlapping_boxes` lines 80-116 applied to an
overlapping pair `(box1, box2)`: push the two boxes apart along the
center-to-center direction (with the degenerate `distance == 0` override to
direction `(1, 0)`, `distance = 1`), then clamp both moved boxes back in
bounds.  `sq` stands for `math.sqrt`. -/
def movedBoxes (sq : ℚ → ℚ) (box1 box2 : Box) : Box × Box :=
  let dx0 := box2.x - box1.x
  let dy0 := box2.y - box1.y
  let dist0 := sq (dx0 * dx0 + dy0 * dy0)
  let dx1 := if dist0 = 0 then 1 else dx0
  let dy1 := if dist0 = 0 then 0 else dy0
  let distance := if dist0 = 0 then 1 else dist0
  let dx := dx1 / distance
  let dy := dy1 / distance
  let min_separation := (box1.width + box2.width) / 2 + 1 / 20
  let move_distance := (min_separation - distance) / 2
  (clampBox { box1 with x := box1.x - dx * move_distance, y := box1.y - dy * move_distance },
   clampBox { box2 with x := box2.x + dx * move_distance, y := box2.y + dy * move_distance })

/-- One execution of the inner pair-loop body of `fix_overlapping_boxes`
(lines 72-116) on the pair of positions `(i, j)`: if the two boxes overlap,
replace them by `movedBoxes`.  Returns the updated mapping and whether this
pair was found overlapping (the contribution to `overlaps_found`). -/
def processPair (sq : ℚ → ℚ) (s : BoxMap) (i j : ℕ) : BoxMap × Bool :=
  match s[i]?, s[j]? with
  | some nb1, some nb2 =>
    if boxes_overlap nb1.2 nb2.2 then
      let m := movedBoxes sq nb1.2 nb2.2
      (setBox (setBox s i m.1) j m.2, true)
    else (s, false)
  | _, _ => (s, false)

/-- The index pairs visited by `for i in range(n): for j in range(i+1, n)`. -/
def allPairs (n : ℕ) : List (ℕ × ℕ) :=
  (List.range n).flatMap (fun i => (List.range' (i + 1) (n - (i + 1))).map (fun j => (i, j)))

/-- One iteration of the outer `while` loop of `fix_overlapping_boxes`:
process every index pair in order, threading the mapping and accumulating
the `overlaps_found` flag. -/
def onePass (sq : ℚ → ℚ) (n : ℕ) (s : BoxMap) : BoxMap × Bool :=
  (allPairs n).foldl
    (fun acc ij =>
      let r := processPair sq acc.1 ij.1 ij.2
      (r.1, acc.2 || r.2))
    (s, false)

/-- The outer `while overlaps_found and iteration < max_iterations` loop,
with the remaining iteration budget as fuel (`max_iterations = 20`). -/
def fixLoop (sq : ℚ → ℚ) (n : ℕ) : ℕ → BoxMap → BoxMap
  | 0, s => s
  | fuel + 1, s =>
    let r := onePass sq n s
    if r.2 then fixLoop sq n fuel r.1 else r.1

/-- Embeds `fix_overlapping_boxes` from `src/fix_bounding_boxes.py` lines 53-118:
returns the input unchanged when it holds at most one box, otherwise runs up
to 20 passes of pairwise separation. -/
def fix_overlapping_boxes (sq : ℚ → ℚ) (bounding_boxes : BoxMap) : BoxMap :=
  if bounding_boxes.length ≤ 1 then bounding_boxes
  else fixLoop sq bounding_boxes.length 20 bounding_boxes

/-- The in-bounds predicate of the spec: `width/2 ≤ x ≤ 1 - width/2` and
symmetrically for `y`. -/
def InBounds (b : Box) : Prop :=
  b.width / 2 ≤ b.x ∧ b.x ≤ 1 - b.width / 2 ∧
  b.height / 2 ≤ b.y ∧ b.y ≤ 1 - b.height / 2

instance (b : Box) : Decidable (InBounds b) := by
  unfold InBounds; infer_instance

/-- One step of the instrumented pass: run `processPair` and, when the pair
was found overlapping, record its two positions as touched. -/
def touchStep (sq : ℚ → ℚ) (acc : (BoxMap × List ℕ) × Bool) (ij : ℕ × ℕ) :
    (BoxMap × List ℕ) × Bool :=
  let r := processPair sq acc.1.1 ij.1 ij.2
  ((r.1, if r.2 then acc.1.2 ++ [ij.1, ij.2] else acc.1.2), acc.2 || r.2)

/-- Instrumented variant of `onePass` that additionally records the positions
of every box that the pass moved (i.e. the two members of each pair found
overlapping).  The box values computed are exactly those of `onePass`. -/
def onePassTouched (sq : ℚ → ℚ) (n : ℕ) (st : BoxMap × List ℕ) :
    (BoxMap × List ℕ) × Bool :=
  (allPairs n).foldl (touchStep sq) (st, false)

/-- Instrumented variant of `fixLoop`, accumulating touched positions. -/
def fixLoopTouched (sq : ℚ → ℚ) (n : ℕ) : ℕ → BoxMap × List ℕ → BoxMap × List ℕ
  | 0, st => st
  | fuel + 1, st =>
    let r := onePassTouched sq n st
    if r.2 then fixLoopTouched sq n fuel r.1 else r.1

/-- Instrumented variant of `fix_overlapping_boxes`: same run, plus the list
of positions of boxes that were ever moved (members of a currently
overlapping pair at the moment their pair was processed). -/
def fixRunTouched (sq : ℚ → ℚ) (s : BoxMap) : BoxMap × List ℕ :=
  if s.length ≤ 1 then (s, [])
  else fixLoopTouched sq s.length 20 (s, [])

/-! ### Text wrapping and fitting (`src/app.py`) -/

/-- Python's `text.split()`: split on whitespace runs, dropping empty pieces. -/
def pySplit (text : String) : List String :=
  (text.split Char.isWhitespace).filter (fun w => w ≠ "")

/-- Python's `' '.join(words)`. -/
def joinWords : List String → String
  | [] => ""
  | [w] => w
  | w :: ws => w ++ " " ++ joinWords ws

/-- The word loop of `wrap_text` (`src/app.py` lines 319-337).  `meas s` is
the measured pixel width of the single line `s` for the font in use
(`draw.textbbox` width).  State: the list of closed lines and the current
line, both as word lists. -/
def wrapLoop (meas : String → ℕ) (max_width : ℕ) :
    List String → List (List String) → List String → List (List String) × List String
  | [], lines, current_line => (lines, current_line)
  | word :: ws, lines, current_line =>
    let test_line := joinWords (current_line ++ [word])
    if meas test_line ≤ max_width then
      wrapLoop meas max_width ws lines (current_line ++ [word])
    else if current_line ≠ [] then
      wrapLoop meas max_width ws (lines ++ [current_line]) [word]
    else
      wrapLoop meas max_width ws (lines ++ [[word]]) current_line

/-- The lines produced by `wrap_text` (including the final
`if current_line: lines.append(...)`), as lists of words. -/
def wrapTextLines (meas : String → ℕ) (text : String) (max_width : ℕ) :
    List (List String) :=
  let r := wrapLoop meas max_width (pySplit text) [] []
  if r.2 = [] then r.1 else r.1 ++ [r.2]

/-- Embeds `wrap_text` from `src/app.py` lines 308-342.  Fonts are abstract values
of a type `F`; `measure f s = (width, height)` is the `textbbox` measurement
of the single line `s` with font `f`.  A `None` font (`if not font`) returns
the text unchanged. -/
def wrap_text {F : Type} (measure : F → String → ℕ × ℕ) (text : String)
    (font : Option F) (max_width : ℕ) : String :=
  match font with
  | none => text
  | some f =>
    String.intercalate "\n"
      ((wrapTextLines (fun s => (measure f s).1) text max_width).map joinWords)

/-- The candidate ladder `font_sizes = [24, 20, 18, 16, 14, 12, 10]`. -/
def fontSizes : List ℕ := [24, 20, 18, 16, 14, 12, 10]

/-- The candidate-size loop of `fit_text_to_bbox` (`src/app.py` lines
352-378), plus its fallback (line 381).  `loadFont size` models
`ImageFont.truetype(..., size)`: `none` when the call raises (then the
`except` branch falls back to the original `font`, here `f0`). -/
def fitLoop {F : Type} (loadFont : ℕ → Option F) (measure : F → String → ℕ × ℕ)
    (text : String) (f0 : F) (bbox_width bbox_height : ℕ) :
    List ℕ → String × Option F
  | [] => (wrap_text measure text (some f0) bbox_width, some f0)
  | size :: rest =>
    let test_font := (loadFont size).getD f0
    let m := measure test_font text
    if m.1 ≤ bbox_width ∧ m.2 ≤ bbox_height then
      (text, some test_font)
    else
      let wrapped := wrap_text measure text (some test_font) bbox_width
      let lines := wrapped.splitOn "\n"
      if lines.length * m.2 ≤ bbox_height then (wrapped, some test_font)
      else fitLoop loadFont measure text f0 bbox_width bbox_height rest

/-- Embeds `fit_text_to_bbox` from `src/app.py` lines 344-381: try the candidate
sizes largest-first (single line, then greedy wrap); if none fits, fall back
to `wrap_text(text, font, bbox_width), font` with the *original* `font`. -/
def fit_text_to_bbox {F : Type} (loadFont : ℕ → Option F)
    (measure : F → String → ℕ × ℕ) (text : String) (font : Option F)
    (bbox_width bbox_height : ℕ) : String × Option F :=
  match font with
  | none => (text, none)
  | some f0 => fitLoop loadFont measure text f0 bbox_width bbox_height fontSizes

/-! ### Bounds auditing (`src/fix_bounding_boxes.py` lines 149-157 and
`src/check_bounds.py`) -/

/-- The out-of-bounds loop of `analyze_meme_boxes`
(`src/fix_bounding_boxes.py` lines 149-157): one issue string per box whose
any edge leaves `[0, 1]`. -/
def analyzeOutOfBoundsIssues (boxes : BoxMap) : List String :=
  boxes.foldl
    (fun issues nb =>
      if nb.2.left < 0 ∨ nb.2.right > 1 ∨ nb.2.top < 0 ∨ nb.2.bottom > 1 then
        issues ++ [nb.1 ++ " extends outside image bounds"]
      else issues)
    []

/-- The content of one issue string built by `check_box_bounds`
(`src/check_bounds.py` lines 20-27): the f-string interpolates the meme
name, the box name, the violated edge's name and that edge's coordinate
(the `:.3f` display formatting is elided). -/
structure BoundIssue where
  meme : String
  box : String
  edge : String
  value : ℚ
deriving DecidableEq, Repr

/-- Embeds `check_box_bounds` from `src/check_bounds.py` lines 10-29. -/
def check_box_bounds (box : Box) (box_name meme_name : String) : List BoundIssue :=
  let issues : List BoundIssue := []
  let issues := if box.left < 0 then issues ++ [⟨meme_name, box_name, "left", box.left⟩] else issues
  let issues := if box.right > 1 then issues ++ [⟨meme_name, box_name, "right", box.right⟩] else issues
  let issues := if box.top < 0 then issues ++ [⟨meme_name, box_name, "top", box.top⟩] else issues
  let issues := if box.bottom > 1 then issues ++ [⟨meme_name, box_name, "bottom", box.bottom⟩] else issues
  issues

/-- Spec-side description: the list of violated edges of a box, in the order
left, right, top, bottom, each entry carrying the violated edge's name and
that edge's coordinate. -/
def violatedEdges (b : Box) : List (String × ℚ) :=
  (if b.left < 0 then [("left", b.left)] else []) ++
  (if b.right > 1 then [("right", b.right)] else []) ++
  (if b.top < 0 then [("top", b.top)] else []) ++
  (if b.bottom > 1 then [("bottom", b.bottom)] else [])

/-! ### Template-name collision resolution (`src/app.py` lines 72-104) -/

/-- The name-cleaning chain of `save_new_template` (`src/app.py` line 77):
lower-case, spaces and hyphens to underscores, punctuation removed. -/
def cleanName (s : String) : String :=
  let s := s.toLower
  let s := s.replace " " "_"
  let s := s.replace "-" "_"
  let s := s.replace "\x22" ""
  let s := s.replace "\x27" ""
  let s := s.replace "!" ""
  let s := s.replace "?" ""
  let s := s.replace ":" ""
  let s := s.replace ";" ""
  let s := s.replace "," ""
  s.replace "." ""

/-- Builds the suffixed candidate name: the base, an underscore, and the
decimal counter. -/
def candidateName (base : String) (counter : ℕ) : String :=
  base ++ "_" ++ Nat.repr counter

/-- The `while any(t.get('name') == template_name ...)` loop of
`save_new_template` (`src/app.py` lines 83-86), with fuel: check the current
candidate; on collision move to `f"{base}_{counter}"` and bump the counter.
The fuel `existing.length + 1` supplied below is enough for the loop to find
a free name, so the cutoff is never hit (proved in `uniquify_finds_least`). -/
def uniquifyGo (existing : List String) (base : String) :
    ℕ → ℕ → String → String
  | 0, _, current => current
  | fuel + 1, counter, current =>
    if current ∈ existing then
      uniquifyGo existing base fuel (counter + 1) (candidateName base counter)
    else current

/-- The final persisted template name chosen by `save_new_template` for a
template whose raw name is `raw`, given the names of the already-loaded
templates. -/
def resolve_template_name (existing : List String) (raw : String) : String :=
  uniquifyGo existing (cleanName raw) (existing.length + 1) 1 (cleanName raw)

/-! ### Shared lemmas about the resolver -/

theorem foldl_invariant {α β : Type _} (f : β → α → β) (P : β → Prop) :
    ∀ (l : List α) (b : β), P b → (∀ x a, a ∈ l → P x → P (f x a)) →
      P (l.foldl f b) := by
  intro l
  induction l with
  | nil => intro b h0 _; exact h0
  | cons a l ih =>
    intro b h0 hstep
    exact ih (f b a) (hstep b a (List.mem_cons_self a l) h0)
      (fun x c hc hx => hstep x c (List.mem_cons_of_mem a hc) hx)

theorem foldl_fixed {α β : Type _} (f : β → α → β) (b : β) :
    ∀ l : List α, (∀ a ∈ l, f b a = b) → l.foldl f b = b := by
  intro l
  induction l with
  | nil => intro _; rfl
  | cons a l ih =>
    intro h
    simp only [List.foldl_cons, h a (List.mem_cons_self a l)]
    exact ih fun c hc => h c (List.mem_cons_of_mem a hc)

theorem foldl_rel {α β γ : Type _} (f : β → α → β) (g : γ → α → γ)
    (R : β → γ → Prop) (l : List α) (b : β) (c : γ) (h : R b c)
    (hstep : ∀ x y a, R x y → R (f x a) (g y a)) :
    R (l.foldl f b) (l.foldl g c) := by
  induction l generalizing b c with
  | nil => exact h
  | cons a l ih => exact ih (f b a) (g c a) (hstep b c a h)

theorem allPairs_mem {n : ℕ} {ij : ℕ × ℕ} (h : ij ∈ allPairs n) :
    ij.1 < ij.2 ∧ ij.2 < n := by
  unfold allPairs at h
  simp only [List.mem_flatMap, List.mem_map, List.mem_range, List.mem_range'_1] at h
  obtain ⟨i, hi, j, hj, rfl⟩ := h
  omega

theorem setBox_length (s : BoxMap) (i : ℕ) (b : Box) :
    (setBox s i b).length = s.length := by
  unfold setBox
  cases h : s[i]? with
  | none => rfl
  | some nb => simp

theorem getElem?_setBox_ne (s : BoxMap) (i : ℕ) (b : Box) {k : ℕ} (hk : k ≠ i) :
    (setBox s i b)[k]? = s[k]? := by
  unfold setBox
  cases h : s[i]? with
  | none => rfl
  | some nb => exact List.getElem?_set_ne (Ne.symm hk)

theorem getElem?_setBox_self (s : BoxMap) (i : ℕ) (b : Box) {nb : String × Box}
    (h : s[i]? = some nb) : (setBox s i b)[i]? = some (nb.1, b) := by
  unfold setBox
  rw [h]
  exact List.getElem?_set_eq_of_lt _ (List.getElem?_eq_some.mp h).1

theorem processPair_of_none {sq : ℚ → ℚ} {s : BoxMap} {i j : ℕ}
    (h : s[i]? = none ∨ s[j]? = none) : processPair sq s i j = (s, false) := by
  unfold processPair
  rcases h with h | h
  · rw [h]
  · rw [h]; cases s[i]? <;> rfl

theorem processPair_of_no_overlap {sq : ℚ → ℚ} {s : BoxMap} {i j : ℕ}
    {nb1 nb2 : String × Box} (hi : s[i]? = some nb1) (hj : s[j]? = some nb2)
    (hov : ¬ boxes_overlap nb1.2 nb2.2) : processPair sq s i j = (s, false) := by
  unfold processPair
  rw [hi, hj]
  simp [hov]

theorem processPair_of_overlap {sq : ℚ → ℚ} {s : BoxMap} {i j : ℕ}
    {nb1 nb2 : String × Box} (hi : s[i]? = some nb1) (hj : s[j]? = some nb2)
    (hov : boxes_overlap nb1.2 nb2.2) :
    processPair sq s i j =
      (setBox (setBox s i (movedBoxes sq nb1.2 nb2.2).1) j (movedBoxes sq nb1.2 nb2.2).2,
       true) := by
  unfold processPair
  rw [hi, hj]
  simp [hov]

theorem processPair_fst_of_not_found {sq : ℚ → ℚ} {s : BoxMap} {i j : ℕ}
    (h : (processPair sq s i j).2 = false) : (processPair sq s i j).1 = s := by
  rcases hi : s[i]? with _ | nb1
  · rw [processPair_of_none (Or.inl hi)]
  rcases hj : s[j]? with _ | nb2
  · rw [processPair_of_none (Or.inr hj)]
  by_cases hov : boxes_overlap nb1.2 nb2.2
  · rw [processPair_of_overlap hi hj hov] at h
    exact absurd h (by simp)
  · rw [processPair_of_no_overlap hi hj hov]

theorem processPair_getElem?_ne (sq : ℚ → ℚ) (s : BoxMap) {i j k : ℕ}
    (hki : k ≠ i) (hkj : k ≠ j) : ((processPair sq s i j).1)[k]? = s[k]? := by
  rcases hi : s[i]? with _ | nb1
  · rw [processPair_of_none (Or.inl hi)]
  rcases hj : s[j]? with _ | nb2
  · rw [processPair_of_none (Or.inr hj)]
  by_cases hov : boxes_overlap nb1.2 nb2.2
  · rw [processPair_of_overlap hi hj hov]
    rw [getElem?_setBox_ne _ _ _ hkj, getElem?_setBox_ne _ _ _ hki]
  · rw [processPair_of_no_overlap hi hj hov]

/-- The name, width and height of an entry: everything except the center. -/
def entrySig (p : String × Box) : String × ℚ × ℚ := (p.1, p.2.width, p.2.height)

theorem processPair_sig (sq : ℚ → ℚ) (s : BoxMap) {i j : ℕ} (hij : i ≠ j) (k : ℕ) :
    ((processPair sq s i j).1)[k]?.map entrySig = s[k]?.map entrySig := by
  rcases hi : s[i]? with _ | nb1
  · rw [processPair_of_none (Or.inl hi)]
  rcases hj : s[j]? with _ | nb2
  · rw [processPair_of_none (Or.inr hj)]
  by_cases hov : boxes_overlap nb1.2 nb2.2
  · rw [processPair_of_overlap hi hj hov]
    have hXj : (setBox s i (movedBoxes sq nb1.2 nb2.2).1)[j]? = some nb2 := by
      rw [getElem?_setBox_ne _ _ _ (Ne.symm hij), hj]
    by_cases hkj : k = j
    · subst hkj
      rw [getElem?_setBox_self _ _ _ hXj, hj]
      rfl
    · rw [getElem?_setBox_ne _ _ _ hkj]
      by_cases hki : k = i
      · subst hki
        rw [getElem?_setBox_self _ _ _ hi, hi]
        rfl
      · rw [getElem?_setBox_ne _ _ _ hki]
  · rw [processPair_of_no_overlap hi hj hov]

theorem onePass_fst_sig (sq : ℚ → ℚ) (n : ℕ) (s : BoxMap) (k : ℕ) :
    ((onePass sq n s).1)[k]?.map entrySig = s[k]?.map entrySig := by
  unfold onePass
  refine foldl_invariant _
    (fun acc : BoxMap × Bool => ∀ m, (acc.1)[m]?.map entrySig = s[m]?.map entrySig)
    (allPairs n) (s, false) (fun _ => rfl) ?_ k
  intro x ij hij hx m
  have hne : ij.1 ≠ ij.2 := Nat.ne_of_lt (allPairs_mem hij).1
  exact (processPair_sig sq x.1 hne m).trans (hx m)

theorem fixLoop_sig (sq : ℚ → ℚ) (n : ℕ) :
    ∀ (fuel : ℕ) (s : BoxMap) (k : ℕ),
      (fixLoop sq n fuel s)[k]?.map entrySig = s[k]?.map entrySig := by
  intro fuel
  induction fuel with
  | zero => intro s k; rfl
  | succ fuel ih =>
    intro s k
    simp only [fixLoop]
    by_cases h : (onePass sq n s).2 <;> simp only [h, if_true, if_false]
    · exact (ih _ k).trans (onePass_fst_sig sq n s k)
    · exact onePass_fst_sig sq n s k

/-! ### Claim C10: the resolver only ever changes box centers -/

/-- Claim C10: for every input mapping, `fix_overlapping_boxes` returns a
mapping with exactly the same keys in the same order, and for every key the
returned box has the same width and height as the input box: the resolver
only ever modifies the `x` and `y` fields of boxes. -/
theorem fix_preserves_keys_and_sizes (sq : ℚ → ℚ) (s : BoxMap) :
    (fix_overlapping_boxes sq s).map (fun p => (p.1, p.2.width, p.2.height)) =
      s.map (fun p => (p.1, p.2.width, p.2.height)) := by
  have h : ∀ k : ℕ,
      (fix_overlapping_boxes sq s)[k]?.map entrySig = s[k]?.map entrySig := by
    intro k
    unfold fix_overlapping_boxes
    by_cases hlen : s.length ≤ 1
    · simp [hlen]
    · simp only [hlen, if_false]
      exact fixLoop_sig sq s.length 20 s k
  apply List.ext_getElem?
  intro k
  rw [List.getElem?_map, List.getElem?_map]
  exact h k

/-! ### Claim C7: termination within the 20-iteration budget -/

theorem fixLoop_eq_iterate (sq : ℚ → ℚ) (n : ℕ) :
    ∀ (fuel : ℕ) (s : BoxMap), ∃ k ≤ fuel,
      fixLoop sq n fuel s = (fun t => (onePass sq n t).1)^[k] s := by
  intro fuel
  induction fuel with
  | zero => intro s; exact ⟨0, Nat.le_refl 0, rfl⟩
  | succ fuel ih =>
    intro s
    by_cases h : (onePass sq n s).2
    · obtain ⟨k, hk, he⟩ := ih (onePass sq n s).1
      refine ⟨k + 1, Nat.succ_le_succ hk, ?_⟩
      rw [Function.iterate_succ_apply]
      simp only [fixLoop, h, if_true]
      exact he
    · refine ⟨1, Nat.succ_le_succ (Nat.zero_le fuel), ?_⟩
      rw [Bool.not_eq_true] at h
      simp only [fixLoop, h, Function.iterate_one]
      rfl

/-- Claim C7: `fix_overlapping_boxes` always returns, and its result is
reached after at most 20 iterations of the outer pass (it is an at-most-20th
iterate of `onePass`); with fewer than 2 boxes the input is returned
unchanged without iterating.  Being a total Lean function of the same
structure as the Python loop, it can raise no exception. -/
theorem fix_terminates_within_cap (sq : ℚ → ℚ) (s : BoxMap) :
    (∃ k ≤ 20, fix_overlapping_boxes sq s = (fun t => (onePass sq s.length t).1)^[k] s) ∧
    (s.length ≤ 1 → fix_overlapping_boxes sq s = s) := by
  constructor
  · unfold fix_overlapping_boxes
    by_cases hlen : s.length ≤ 1
    · exact ⟨0, Nat.zero_le 20, by simp [hlen]⟩
    · simp only [hlen, if_false]
      exact fixLoop_eq_iterate sq s.length 20 s
  · intro hlen
    unfold fix_overlapping_boxes
    simp [hlen]

/-- Witness for `fix_terminates_within_cap`: on a one-box mapping the
resolver returns its input unchanged. -/
theorem fix_terminates_within_cap_witness :
    fix_overlapping_boxes (fun _ => 0) [("top_text", ⟨1/2, 1/4, 2/5, 1/5⟩)] =
      [("top_text", ⟨1/2, 1/4, 2/5, 1/5⟩)] :=
  (fix_terminates_within_cap (fun _ => 0) [("top_text", ⟨1/2, 1/4, 2/5, 1/5⟩)]).2 (by decide)

/-! ### Claim C4: idempotence on overlap-free input -/

theorem onePass_of_no_overlaps (sq : ℚ → ℚ) (s : BoxMap)
    (hno : s.Pairwise (fun p q => ¬ boxes_overlap p.2 q.2)) :
    onePass sq s.length s = (s, false) := by
  unfold onePass
  apply foldl_fixed
  intro ij hij
  obtain ⟨h1, h2⟩ := allPairs_mem hij
  have hlt1 : ij.1 < s.length := Nat.lt_trans h1 h2
  have hi : s[ij.1]? = some s[ij.1] := List.getElem?_eq_getElem hlt1
  have hj : s[ij.2]? = some s[ij.2] := List.getElem?_eq_getElem h2
  have hov : ¬ boxes_overlap (s[ij.1]).2 (s[ij.2]).2 := by
    have := List.pairwise_iff_get.mp hno ⟨ij.1, hlt1⟩ ⟨ij.2, h2⟩ h1
    simpa using this
  simp only [processPair_of_no_overlap hi hj hov]
  rfl

theorem fixLoop_succ_of_no_found (sq : ℚ → ℚ) (n fuel : ℕ) (s : BoxMap)
    (h : onePass sq n s = (s, false)) : fixLoop sq n (fuel + 1) s = s := by
  simp only [fixLoop, h]
  rfl

/-- Claim C4: on a mapping in which no two boxes overlap and every box is
in-bounds, `fix_overlapping_boxes` returns the boxes unchanged (idempotence
on already-resolved input; the in-bounds hypothesis is not even needed). -/
theorem fix_idempotent_on_resolved (sq : ℚ → ℚ) (s : BoxMap)
    (hno : s.Pairwise (fun p q => ¬ boxes_overlap p.2 q.2))
    (_hin : ∀ nb ∈ s, InBounds nb.2) :
    fix_overlapping_boxes sq s = s := by
  unfold fix_overlapping_boxes
  by_cases hlen : s.length ≤ 1
  · simp [hlen]
  · simp only [hlen, if_false]
    exact fixLoop_succ_of_no_found sq s.length 19 s (onePass_of_no_overlaps sq s hno)

/-- Witness for `fix_idempotent_on_resolved`: two disjoint in-bounds boxes
come back bit-for-bit unchanged. -/
theorem fix_idempotent_on_resolved_witness :
    fix_overlapping_boxes (fun _ => 0)
        [("top_text", ⟨1/2, 1/5, 3/5, 1/5⟩), ("bottom_text", ⟨1/2, 4/5, 3/5, 1/5⟩)] =
      [("top_text", ⟨1/2, 1/5, 3/5, 1/5⟩), ("bottom_text", ⟨1/2, 4/5, 3/5, 1/5⟩)] :=
  fix_idempotent_on_resolved (fun _ => 0) _
    (by
      norm_num [List.pairwise_cons, boxes_overlap, Box.left, Box.right, Box.top, Box.bottom])
    (by norm_num [InBounds])

/-! ### Claim C1: bounds of returned boxes -/

theorem clampBox_inBounds {b : Box} (hw : b.width ≤ 1) (hh : b.height ≤ 1) :
    InBounds (clampBox b) := by
  unfold InBounds clampBox
  refine ⟨le_max_left _ _, ?_, le_max_left _ _, ?_⟩
  · exact max_le (by linarith) (min_le_left _ _)
  · exact max_le (by linarith) (min_le_left _ _)

theorem movedBoxes_fst_inBounds (sq : ℚ → ℚ) {b1 : Box} (b2 : Box)
    (hw : b1.width ≤ 1) (hh : b1.height ≤ 1) : InBounds (movedBoxes sq b1 b2).1 :=
  clampBox_inBounds hw hh

theorem movedBoxes_snd_inBounds (sq : ℚ → ℚ) (b1 : Box) {b2 : Box}
    (hw : b2.width ≤ 1) (hh : b2.height ≤ 1) : InBounds (movedBoxes sq b1 b2).2 :=
  clampBox_inBounds hw hh

/-- Invariant: every position holds either its original entry or an
in-bounds box. -/
def UnchOrIn (s0 s : BoxMap) : Prop :=
  ∀ k : ℕ, s[k]? = s0[k]? ∨ ∀ nb, s[k]? = some nb → InBounds nb.2

theorem width_height_le_of_sig {s0 s : BoxMap}
    (hwh : ∀ nb ∈ s0, nb.2.width ≤ 1 ∧ nb.2.height ≤ 1)
    (hsig : ∀ k : ℕ, s[k]?.map entrySig = s0[k]?.map entrySig)
    {i : ℕ} {nb : String × Box} (hi : s[i]? = some nb) :
    nb.2.width ≤ 1 ∧ nb.2.height ≤ 1 := by
  have h := hsig i
  rw [hi] at h
  rcases h0 : s0[i]? with _ | mb
  · rw [h0] at h; exact absurd h (by simp)
  · rw [h0] at h
    have hmem : mb ∈ s0 := List.mem_iff_getElem?.mpr ⟨i, h0⟩
    obtain ⟨hw, hh⟩ := hwh mb hmem
    simp only [Option.map_some', Option.some_inj, entrySig, Prod.ext_iff] at h
    rw [h.2.1, h.2.2]
    exact ⟨hw, hh⟩

theorem processPair_unchOrIn (sq : ℚ → ℚ) {s0 s : BoxMap} {i j : ℕ} (hij : i ≠ j)
    (hwh : ∀ nb ∈ s0, nb.2.width ≤ 1 ∧ nb.2.height ≤ 1)
    (hsig : ∀ k : ℕ, s[k]?.map entrySig = s0[k]?.map entrySig)
    (hunch : UnchOrIn s0 s) : UnchOrIn s0 (processPair sq s i j).1 := by
  intro k
  rcases hi : s[i]? with _ | nb1
  · rw [processPair_of_none (Or.inl hi)]; exact hunch k
  rcases hj : s[j]? with _ | nb2
  · rw [processPair_of_none (Or.inr hj)]; exact hunch k
  by_cases hov : boxes_overlap nb1.2 nb2.2
  case neg => rw [processPair_of_no_overlap hi hj hov]; exact hunch k
  rw [processPair_of_overlap hi hj hov]
  have hXj : (setBox s i (movedBoxes sq nb1.2 nb2.2).1)[j]? = some nb2 := by
    rw [getElem?_setBox_ne _ _ _ (Ne.symm hij), hj]
  obtain ⟨hw1, hh1⟩ := width_height_le_of_sig hwh hsig hi
  obtain ⟨hw2, hh2⟩ := width_height_le_of_sig hwh hsig hj
  by_cases hkj : k = j
  · subst hkj
    right
    intro nb hnb
    rw [getElem?_setBox_self _ _ _ hXj] at hnb
    obtain rfl : nb = (nb2.1, (movedBoxes sq nb1.2 nb2.2).2) := (Option.some_inj.mp hnb).symm
    exact movedBoxes_snd_inBounds sq nb1.2 hw2 hh2
  · by_cases hki : k = i
    · subst hki
      right
      intro nb hnb
      rw [getElem?_setBox_ne _ _ _ hkj, getElem?_setBox_self _ _ _ hi] at hnb
      obtain rfl : nb = (nb1.1, (movedBoxes sq nb1.2 nb2.2).1) := (Option.some_inj.mp hnb).symm
      exact movedBoxes_fst_inBounds sq nb2.2 hw1 hh1
    · rw [getElem?_setBox_ne _ _ _ hkj, getElem?_setBox_ne _ _ _ hki]
      exact hunch k

theorem onePass_unchOrIn (sq : ℚ → ℚ) (n : ℕ) {s0 s : BoxMap}
    (hwh : ∀ nb ∈ s0, nb.2.width ≤ 1 ∧ nb.2.height ≤ 1)
    (hsig : ∀ k : ℕ, s[k]?.map entrySig = s0[k]?.map entrySig)
    (hunch : UnchOrIn s0 s) :
    (∀ k : ℕ, ((onePass sq n s).1)[k]?.map entrySig = s0[k]?.map entrySig) ∧
      UnchOrIn s0 (onePass sq n s).1 := by
  unfold onePass
  refine foldl_invariant _
    (fun acc : BoxMap × Bool =>
      (∀ k : ℕ, (acc.1)[k]?.map entrySig = s0[k]?.map entrySig) ∧ UnchOrIn s0 acc.1)
    (allPairs n) (s, false) ⟨hsig, hunch⟩ ?_
  intro x ij hij hx
  have hne : ij.1 ≠ ij.2 := Nat.ne_of_lt (allPairs_mem hij).1
  exact ⟨fun m => (processPair_sig sq x.1 hne m).trans (hx.1 m),
    processPair_unchOrIn sq hne hwh hx.1 hx.2⟩

theorem fixLoop_unchOrIn (sq : ℚ → ℚ) (n : ℕ)
    {s0 : BoxMap} (hwh : ∀ nb ∈ s0, nb.2.width ≤ 1 ∧ nb.2.height ≤ 1) :
    ∀ (fuel : ℕ) (s : BoxMap),
      (∀ k : ℕ, s[k]?.map entrySig = s0[k]?.map entrySig) → UnchOrIn s0 s →
      UnchOrIn s0 (fixLoop sq n fuel s) := by
  intro fuel
  induction fuel with
  | zero => intro s _ hunch; exact hunch
  | succ fuel ih =>
    intro s hsig hunch
    obtain ⟨hsig', hunch'⟩ := onePass_unchOrIn sq n hwh hsig hunch
    simp only [fixLoop]
    by_cases h : (onePass sq n s).2 <;> simp only [h, if_true]
    · exact ih _ hsig' hunch'
    · exact hunch'

/-- Claim C1 (amended): when every box has `width ≤ 1` and `height ≤ 1`,
every box in the mapping returned by `fix_overlapping_boxes` is either
exactly its input box (the resolver never moved it) or in-bounds
(`width/2 ≤ x ≤ 1 - width/2` and symmetrically for `y`).  Boxes the
resolver never moves are returned verbatim, so an out-of-bounds input box
that overlaps nothing stays out of bounds (see
`fix_inbounds_counterexample`). -/
theorem fix_box_unchanged_or_inbounds (sq : ℚ → ℚ) (s : BoxMap)
    (hwh : ∀ nb ∈ s, nb.2.width ≤ 1 ∧ nb.2.height ≤ 1)
    (k : ℕ) (nb : String × Box)
    (hk : (fix_overlapping_boxes sq s)[k]? = some nb) :
    s[k]? = some nb ∨ InBounds nb.2 := by
  have hrun : UnchOrIn s (fix_overlapping_boxes sq s) := by
    unfold fix_overlapping_boxes
    by_cases hlen : s.length ≤ 1
    · simp only [hlen, if_true]
      intro k; left; rfl
    · simp only [hlen, if_false]
      exact fixLoop_unchOrIn sq s.length hwh 20 s (fun _ => rfl) (fun k => Or.inl rfl)
  rcases hrun k with h | h
  · left; rw [← h, hk]
  · right; exact h nb hk

/-- Counterexample to claim C1 as stated: a single box with
`width = height = 1/2 ≤ 1` centered at `x = 0` is returned unchanged by
`fix_overlapping_boxes` (nothing overlaps it, so it is never clamped), and
it violates the in-bounds inequality `width/2 ≤ x`. -/
theorem fix_inbounds_counterexample :
    fix_overlapping_boxes (fun _ => 0) [("caption", ⟨0, 1/2, 1/2, 1/2⟩)] =
        [("caption", ⟨0, 1/2, 1/2, 1/2⟩)] ∧
      (1/2 : ℚ) ≤ 1 ∧ ¬ InBounds ⟨0, 1/2, 1/2, 1/2⟩ := by
  refine ⟨rfl, by norm_num, ?_⟩
  unfold InBounds
  norm_num

/-- Witness for `fix_box_unchanged_or_inbounds` at a concrete input: a
one-box mapping whose box satisfies the size hypotheses. -/
theorem fix_box_unchanged_or_inbounds_witness :
    [("caption", (⟨0, 1/2, 1/2, 1/2⟩ : Box))][0]? =
        some ("caption", (⟨0, 1/2, 1/2, 1/2⟩ : Box)) ∨
      InBounds (⟨0, 1/2, 1/2, 1/2⟩ : Box) :=
  fix_box_unchanged_or_inbounds (fun _ => 0) [("caption", ⟨0, 1/2, 1/2, 1/2⟩)]
    (by norm_num) 0 ("caption", ⟨0, 1/2, 1/2, 1/2⟩) rfl

/-! ### Claim C9: only members of overlapping pairs are ever moved -/

theorem onePassTouched_fst (sq : ℚ → ℚ) (n : ℕ) (st : BoxMap × List ℕ) :
    (onePassTouched sq n st).1.1 = (onePass sq n st.1).1 ∧
      (onePassTouched sq n st).2 = (onePass sq n st.1).2 := by
  unfold onePassTouched onePass
  refine foldl_rel (touchStep sq) _
    (fun (x : (BoxMap × List ℕ) × Bool) (y : BoxMap × Bool) => x.1.1 = y.1 ∧ x.2 = y.2)
    (allPairs n) ((st, false)) ((st.1, false)) ⟨rfl, rfl⟩ ?_
  intro x y ij hxy
  obtain ⟨h1, h2⟩ := hxy
  constructor
  · show (processPair sq x.1.1 ij.1 ij.2).1 = (processPair sq y.1 ij.1 ij.2).1
    rw [h1]
  · show (x.2 || (processPair sq x.1.1 ij.1 ij.2).2) = (y.2 || (processPair sq y.1 ij.1 ij.2).2)
    rw [h1, h2]

theorem fixLoopTouched_fst (sq : ℚ → ℚ) (n : ℕ) :
    ∀ (fuel : ℕ) (st : BoxMap × List ℕ),
      (fixLoopTouched sq n fuel st).1 = fixLoop sq n fuel st.1 := by
  intro fuel
  induction fuel with
  | zero => intro st; rfl
  | succ fuel ih =>
    intro st
    obtain ⟨h1, h2⟩ := onePassTouched_fst sq n st
    by_cases h : (onePass sq n st.1).2
    · simp only [fixLoopTouched, fixLoop, h2, h, if_true]
      rw [ih, h1]
    · rw [Bool.not_eq_true] at h
      simp only [fixLoopTouched, fixLoop, h2, h]
      exact h1

theorem foldl_touchStep_frame (sq : ℚ → ℚ) :
    ∀ (l : List (ℕ × ℕ)) (st : (BoxMap × List ℕ) × Bool) (k : ℕ),
      k ∉ (l.foldl (touchStep sq) st).1.2 →
      (l.foldl (touchStep sq) st).1.1[k]? = st.1.1[k]? ∧ k ∉ st.1.2 := by
  intro l
  induction l with
  | nil => intro st k h; exact ⟨rfl, h⟩
  | cons ij l ih =>
    intro st k h
    rw [List.foldl_cons] at h ⊢
    obtain ⟨h1, h2⟩ := ih (touchStep sq st ij) k h
    by_cases hr : (processPair sq st.1.1 ij.1 ij.2).2
    · have hst : (touchStep sq st ij).1.2 = st.1.2 ++ [ij.1, ij.2] := by
        simp only [touchStep, hr, if_true]
      rw [hst, List.mem_append, List.mem_cons, List.mem_singleton] at h2
      push_neg at h2
      obtain ⟨hk0, hki, hkj⟩ := h2
      have hfst : (touchStep sq st ij).1.1 = (processPair sq st.1.1 ij.1 ij.2).1 := rfl
      rw [h1, hfst, processPair_getElem?_ne sq st.1.1 hki hkj]
      exact ⟨rfl, hk0⟩
    · rw [Bool.not_eq_true] at hr
      have hst : (touchStep sq st ij).1.2 = st.1.2 := by
        simp only [touchStep, hr]
        rfl
      have hfst : (touchStep sq st ij).1.1 = st.1.1 := by
        have : (touchStep sq st ij).1.1 = (processPair sq st.1.1 ij.1 ij.2).1 := rfl
        rw [this, processPair_fst_of_not_found hr]
      rw [hst] at h2
      rw [h1, hfst]
      exact ⟨rfl, h2⟩

theorem fixLoopTouched_frame (sq : ℚ → ℚ) (n : ℕ) :
    ∀ (fuel : ℕ) (st : BoxMap × List ℕ) (k : ℕ),
      k ∉ (fixLoopTouched sq n fuel st).2 →
      (fixLoopTouched sq n fuel st).1[k]? = st.1[k]? ∧ k ∉ st.2 := by
  intro fuel
  induction fuel with
  | zero => intro st k h; exact ⟨rfl, h⟩
  | succ fuel ih =>
    intro st k h
    by_cases hb : (onePassTouched sq n st).2
    · simp only [fixLoopTouched, hb, if_true] at h ⊢
      obtain ⟨h1, h2⟩ := ih (onePassTouched sq n st).1 k h
      obtain ⟨h3, h4⟩ := foldl_touchStep_frame sq (allPairs n) ((st, false)) k h2
      exact ⟨h1.trans h3, h4⟩
    · rw [Bool.not_eq_true] at hb
      simp only [fixLoopTouched, hb] at h ⊢
      exact foldl_touchStep_frame sq (allPairs n) ((st, false)) k h

/-- Claim C9: a box whose position is never recorded as touched (it never
belonged to a currently overlapping pair at any moment the resolver
examined a pair containing it) is returned with exactly its input entry,
`x` and `y` included: movement and clamping happen only to members of a
currently overlapping pair.  In particular an out-of-bounds box that
overlaps nothing is neither clamped nor moved. -/
theorem fix_untouched_box_unchanged (sq : ℚ → ℚ) (s : BoxMap) (k : ℕ)
    (hk : k ∉ (fixRunTouched sq s).2) :
    (fix_overlapping_boxes sq s)[k]? = s[k]? := by
  unfold fixRunTouched at hk
  unfold fix_overlapping_boxes
  by_cases hlen : s.length ≤ 1
  · simp [hlen]
  · simp only [hlen, if_false] at hk ⊢
    have h := fixLoopTouched_frame sq s.length 20 ((s, [])) k hk
    rw [← fixLoopTouched_fst sq s.length 20 ((s, []))]
    exact h.1

/-- Square-root stub used by the concrete resolver runs below: it returns
the exact square root at the only argument those runs evaluate it on
(`1/25 ↦ 1/5`, as `math.sqrt` would). -/
def sqWitness : ℚ → ℚ := fun q => if q = 1/25 then 1/5 else 0

/-- Concrete mapping for the frame witness: boxes `a` and `b` overlap;
box `c` is out of bounds (its left edge is at `-1/20`) and far from both,
so it never belongs to an overlapping pair. -/
def demoBoxes : BoxMap :=
  [("a", ⟨2/5, 1/2, 3/10, 3/10⟩), ("b", ⟨3/5, 1/2, 3/10, 3/10⟩),
   ("c", ⟨0, 9/10, 1/10, 1/10⟩)]

/-- Witness for `fix_untouched_box_unchanged`: in `demoBoxes` the resolver
moves boxes `a` and `b` apart (they overlap), while the never-overlapping
out-of-bounds box `c` is returned with exactly its input entry. -/
theorem fix_untouched_box_unchanged_witness :
    (fix_overlapping_boxes sqWitness demoBoxes)[2]? = demoBoxes[2]? :=
  fix_untouched_box_unchanged sqWitness demoBoxes 2
    (by
      norm_num [fixRunTouched, fixLoopTouched, onePassTouched, touchStep, processPair,
        movedBoxes, clampBox, setBox, boxes_overlap, Box.left, Box.right, Box.top,
        Box.bottom, allPairs, sqWitness, demoBoxes, List.range', List.range_succ,
        List.foldl_cons, List.foldl_nil])

/-! ### Claim C3: coincident centers are separated along the x-axis -/

/-- One resolver pass over a pair of boxes with identical centers and equal
sizes: the degenerate `distance == 0` branch fires (direction `(1, 0)`,
`distance = 1`), so the boxes move horizontally by
`-(minSep - 1)/2` and `+(minSep - 1)/2` and are then clamped. -/
theorem onePass_coincident (sq : ℚ → ℚ) (hsq : sq 0 = 0) (n1 n2 : String)
    (x y w h : ℚ) (hw0 : 0 < w) (hh0 : 0 < h) :
    (onePass sq 2 [(n1, ⟨x, y, w, h⟩), (n2, ⟨x, y, w, h⟩)]).1 =
      [(n1, clampBox ⟨x - ((w + w) / 2 + 1 / 20 - 1) / 2, y, w, h⟩),
       (n2, clampBox ⟨x + ((w + w) / 2 + 1 / 20 - 1) / 2, y, w, h⟩)] := by
  have hov : boxes_overlap (⟨x, y, w, h⟩ : Box) ⟨x, y, w, h⟩ := by
    unfold boxes_overlap Box.right Box.left Box.bottom Box.top
    push_neg
    refine ⟨by dsimp only; linarith, by dsimp only; linarith,
      by dsimp only; linarith, by dsimp only; linarith⟩
  have hpairs : allPairs 2 = [(0, 1)] := rfl
  unfold onePass
  rw [hpairs, List.foldl_cons, List.foldl_nil]
  have hi : ([(n1, (⟨x, y, w, h⟩ : Box)), (n2, ⟨x, y, w, h⟩)])[0]? =
      some (n1, ⟨x, y, w, h⟩) := rfl
  have hj : ([(n1, (⟨x, y, w, h⟩ : Box)), (n2, ⟨x, y, w, h⟩)])[1]? =
      some (n2, ⟨x, y, w, h⟩) := rfl
  show (processPair sq [(n1, ⟨x, y, w, h⟩), (n2, ⟨x, y, w, h⟩)] 0 1).1 = _
  rw [processPair_of_overlap hi hj hov]
  have hzero : (x - x) * (x - x) + (y - y) * (y - y) = 0 := by ring
  have hm : movedBoxes sq (⟨x, y, w, h⟩ : Box) ⟨x, y, w, h⟩ =
      (clampBox ⟨x - ((w + w) / 2 + 1 / 20 - 1) / 2, y, w, h⟩,
       clampBox ⟨x + ((w + w) / 2 + 1 / 20 - 1) / 2, y, w, h⟩) := by
    simp only [movedBoxes, hzero, hsq]
    norm_num
  rw [hm]
  rfl

/-- Claim C3 (amended): for two boxes with identical centers `(x, y)` and
equal width `w` and height `h` (both positive), one resolver pass separates
them along the x-axis (their returned centers share the same `y` and differ
in `x`), and they are no longer overlapping **provided** `w ≤ 19/40` and the
two pushed centers `x ∓ (w + 1/20 - 1)/2` lie inside the clamping interval
`[w/2, 1 - w/2]`.  Without these provisos the pair can still overlap after
the pass (see `coincident_pair_counterexample`). -/
theorem coincident_pair_separated (sq : ℚ → ℚ) (hsq : sq 0 = 0) (n1 n2 : String)
    (x y w h : ℚ) (hw0 : 0 < w) (hh0 : 0 < h) (hwb : w ≤ 19/40)
    (hlo : w / 2 ≤ x + ((w + w) / 2 + 1 / 20 - 1) / 2)
    (hhi : x - ((w + w) / 2 + 1 / 20 - 1) / 2 ≤ 1 - w / 2) :
    (onePass sq 2 [(n1, ⟨x, y, w, h⟩), (n2, ⟨x, y, w, h⟩)]).1 =
      [(n1, ⟨x - ((w + w) / 2 + 1 / 20 - 1) / 2, max (h / 2) (min (1 - h / 2) y), w, h⟩),
       (n2, ⟨x + ((w + w) / 2 + 1 / 20 - 1) / 2, max (h / 2) (min (1 - h / 2) y), w, h⟩)] ∧
    ¬ boxes_overlap
        ⟨x - ((w + w) / 2 + 1 / 20 - 1) / 2, max (h / 2) (min (1 - h / 2) y), w, h⟩
        ⟨x + ((w + w) / 2 + 1 / 20 - 1) / 2, max (h / 2) (min (1 - h / 2) y), w, h⟩ ∧
    x - ((w + w) / 2 + 1 / 20 - 1) / 2 ≠ x + ((w + w) / 2 + 1 / 20 - 1) / 2 := by
  have hmneg : ((w + w) / 2 + 1 / 20 - 1) / 2 < 0 := by linarith
  have hxlo : w / 2 ≤ x - ((w + w) / 2 + 1 / 20 - 1) / 2 := by linarith
  have hxhi : x + ((w + w) / 2 + 1 / 20 - 1) / 2 ≤ 1 - w / 2 := by linarith
  refine ⟨?_, ?_, by intro hcon; linarith⟩
  · rw [onePass_coincident sq hsq n1 n2 x y w h hw0 hh0]
    unfold clampBox
    simp only
    rw [min_eq_right hhi, max_eq_right hxlo, min_eq_right hxhi, max_eq_right hlo]
  · intro hcon
    unfold boxes_overlap Box.right Box.left Box.bottom Box.top at hcon
    apply hcon
    right; left
    dsimp only
    linarith

/-- Counterexample to claim C3 as stated: two boxes with identical centers
`(1/2, 1/2)` and equal size `3/5 × 3/5` are, after one resolver pass,
separated by only `0.35 < 3/5` along the x-axis, so the two returned boxes
still overlap (the claim asserts they no longer overlap). -/
theorem coincident_pair_counterexample :
    (onePass (fun _ => 0) 2
        [("a", ⟨1/2, 1/2, 3/5, 3/5⟩), ("b", ⟨1/2, 1/2, 3/5, 3/5⟩)]).1 =
      [("a", ⟨27/40, 1/2, 3/5, 3/5⟩), ("b", ⟨13/40, 1/2, 3/5, 3/5⟩)] ∧
    boxes_overlap (⟨27/40, 1/2, 3/5, 3/5⟩ : Box) ⟨13/40, 1/2, 3/5, 3/5⟩ := by
  constructor
  · rw [onePass_coincident (fun _ => 0) rfl "a" "b" (1/2) (1/2) (3/5) (3/5)
      (by norm_num) (by norm_num)]
    norm_num [clampBox, Box.mk.injEq]
  · unfold boxes_overlap Box.right Box.left Box.bottom Box.top
    norm_num

/-- Witness for `coincident_pair_separated`: two coincident `3/10 × 3/10`
boxes centered at `(1/2, 1/2)`; one pass moves them to `x = 33/40` and
`x = 7/40`, same `y`, and they no longer overlap. -/
theorem coincident_pair_separated_witness :
    (onePass sqWitness 2
        [("a", ⟨1/2, 1/2, 3/10, 3/10⟩), ("b", ⟨1/2, 1/2, 3/10, 3/10⟩)]).1 =
      [("a", ⟨1/2 - ((3/10 + 3/10) / 2 + 1/20 - 1) / 2,
          max (3/10/2) (min (1 - 3/10/2) (1/2)), 3/10, 3/10⟩),
       ("b", ⟨1/2 + ((3/10 + 3/10) / 2 + 1/20 - 1) / 2,
          max (3/10/2) (min (1 - 3/10/2) (1/2)), 3/10, 3/10⟩)] ∧
    ¬ boxes_overlap
        ⟨1/2 - ((3/10 + 3/10) / 2 + 1/20 - 1) / 2,
          max (3/10/2) (min (1 - 3/10/2) (1/2)), 3/10, 3/10⟩
        ⟨1/2 + ((3/10 + 3/10) / 2 + 1/20 - 1) / 2,
          max (3/10/2) (min (1 - 3/10/2) (1/2)), 3/10, 3/10⟩ ∧
    (1/2 : ℚ) - ((3/10 + 3/10) / 2 + 1/20 - 1) / 2 ≠
      1/2 + ((3/10 + 3/10) / 2 + 1/20 - 1) / 2 :=
  coincident_pair_separated sqWitness (by norm_num [sqWitness]) "a" "b"
    (1/2) (1/2) (3/10) (3/10) (by norm_num) (by norm_num) (by norm_num)
    (by norm_num) (by norm_num)

/-! ### Claim C6: the greedy word-wrap -/

theorem wrapLoop_flatten (meas : String → ℕ) (mw : ℕ) :
    ∀ (ws : List String) (lines : List (List String)) (cur : List String),
      (wrapLoop meas mw ws lines cur).1.flatten ++ (wrapLoop meas mw ws lines cur).2 =
        lines.flatten ++ cur ++ ws := by
  intro ws
  induction ws with
  | nil => intro lines cur; simp [wrapLoop]
  | cons w ws ih =>
    intro lines cur
    simp only [wrapLoop]
    by_cases h1 : meas (joinWords (cur ++ [w])) ≤ mw
    · rw [if_pos h1, ih]
      simp
    · rw [if_neg h1]
      by_cases h2 : cur ≠ []
      · rw [if_pos h2, ih]
        simp
      · rw [if_neg h2]
        push_neg at h2
        subst h2
        rw [ih]
        simp

/-- A produced line: nonempty, and fits unless it is a single word. -/
def GoodLine (meas : String → ℕ) (mw : ℕ) (L : List String) : Prop :=
  L ≠ [] ∧ (L.length = 1 ∨ meas (joinWords L) ≤ mw)

theorem wrapLoop_good (meas : String → ℕ) (mw : ℕ) :
    ∀ (ws : List String) (lines : List (List String)) (cur : List String),
      (∀ L ∈ lines, GoodLine meas mw L) →
      (cur = [] ∨ cur.length = 1 ∨ meas (joinWords cur) ≤ mw) →
      (∀ L ∈ (wrapLoop meas mw ws lines cur).1, GoodLine meas mw L) ∧
      ((wrapLoop meas mw ws lines cur).2 = [] ∨
        (wrapLoop meas mw ws lines cur).2.length = 1 ∨
        meas (joinWords (wrapLoop meas mw ws lines cur).2) ≤ mw) := by
  intro ws
  induction ws with
  | nil => intro lines cur hl hc; exact ⟨hl, hc⟩
  | cons w ws ih =>
    intro lines cur hl hc
    simp only [wrapLoop]
    by_cases h1 : meas (joinWords (cur ++ [w])) ≤ mw
    · rw [if_pos h1]
      exact ih lines (cur ++ [w]) hl (Or.inr (Or.inr h1))
    · rw [if_neg h1]
      by_cases h2 : cur ≠ []
      · rw [if_pos h2]
        refine ih (lines ++ [cur]) [w] ?_ (Or.inr (Or.inl rfl))
        intro L hL
        rcases List.mem_append.mp hL with h | h
        · exact hl L h
        · obtain rfl : L = cur := List.mem_singleton.mp h
          rcases hc with hc | hc
          · exact absurd hc h2
          · exact ⟨h2, hc⟩
      · rw [if_neg h2]
        push_neg at h2
        refine ih (lines ++ [[w]]) cur ?_ (Or.inl h2)
        intro L hL
        rcases List.mem_append.mp hL with h | h
        · exact hl L h
        · obtain rfl : L = [w] := List.mem_singleton.mp h
          exact ⟨List.cons_ne_nil w [], Or.inl rfl⟩

theorem wrapTextLines_spec (meas : String → ℕ) (text : String) (mw : ℕ) :
    (wrapTextLines meas text mw).flatten = pySplit text ∧
      ∀ L ∈ wrapTextLines meas text mw, GoodLine meas mw L := by
  unfold wrapTextLines
  have h1 := wrapLoop_flatten meas mw (pySplit text) [] []
  have h2 := wrapLoop_good meas mw (pySplit text) [] [] (by intro L hL; cases hL)
    (Or.inl rfl)
  simp only [List.flatten_nil, List.nil_append] at h1
  by_cases hcur : (wrapLoop meas mw (pySplit text) [] []).2 = []
  · simp only [hcur, if_pos rfl]
    rw [hcur, List.append_nil] at h1
    exact ⟨h1, h2.1⟩
  · rw [if_neg hcur]
    constructor
    · rw [List.flatten_append, List.flatten_cons, List.flatten_nil, List.append_nil]
      exact h1
    · intro L hL
      rcases List.mem_append.mp hL with h | h
      · exact h2.1 L h
      · obtain rfl : L = (wrapLoop meas mw (pySplit text) [] []).2 :=
          List.mem_singleton.mp h
        rcases h2.2 with h | h
        · exact absurd h hcur
        · exact ⟨hcur, h⟩

/-- Claim C6: for every text, font and box width, the greedy wrap of
`wrap_text` (i) keeps every word, in order, never splitting one (the lines
flatten back to exactly the split words), (ii) produces only nonempty lines
that are single words or measure within the box width, (iii) puts any word
measured wider than the box alone on its own line (assuming the measurement
is monotone: a word never measures wider than a line containing it), and
(iv) `wrap_text` renders exactly these lines joined with newlines. -/
theorem wrap_text_greedy {F : Type} (measure : F → String → ℕ × ℕ) (f : F)
    (text : String) (max_width : ℕ)
    (hmono : ∀ (L : List String) (w : String), w ∈ L →
      (measure f w).1 ≤ (measure f (joinWords L)).1) :
    (wrapTextLines (fun s => (measure f s).1) text max_width).flatten = pySplit text ∧
    (∀ L ∈ wrapTextLines (fun s => (measure f s).1) text max_width,
      L ≠ [] ∧ (L.length = 1 ∨ (measure f (joinWords L)).1 ≤ max_width)) ∧
    (∀ L ∈ wrapTextLines (fun s => (measure f s).1) text max_width,
      ∀ w ∈ L, max_width < (measure f w).1 → L = [w]) ∧
    wrap_text measure text (some f) max_width =
      String.intercalate "\n"
        ((wrapTextLines (fun s => (measure f s).1) text max_width).map joinWords) := by
  obtain ⟨hflat, hgood⟩ := wrapTextLines_spec (fun s => (measure f s).1) text max_width
  refine ⟨hflat, hgood, ?_, rfl⟩
  intro L hL w hw hwide
  obtain ⟨hne, hgl⟩ := hgood L hL
  rcases hgl with h1 | h2
  · obtain ⟨a, rfl⟩ := List.length_eq_one.mp h1
    obtain rfl : w = a := List.mem_singleton.mp hw
    rfl
  · exact absurd (le_trans (hmono L w hw) h2) (not_le.mpr hwide)

/-- For the simple measurement used by the witness (line width = string
length), a word is never longer than a line containing it. -/
theorem length_le_length_joinWords :
    ∀ (L : List String) (w : String), w ∈ L → w.length ≤ (joinWords L).length := by
  intro L
  induction L with
  | nil => intro w hw; exact absurd hw (List.not_mem_nil w)
  | cons a t ih =>
    intro w hw
    cases t with
    | nil =>
      obtain rfl : w = a := List.mem_singleton.mp hw
      exact Nat.le_refl _
    | cons b t2 =>
      have hj : joinWords (a :: b :: t2) = a ++ " " ++ joinWords (b :: t2) := rfl
      rcases List.mem_cons.mp hw with rfl | hw2
      · rw [hj, String.length_append, String.length_append]
        omega
      · have := ih w hw2
        rw [hj, String.length_append, String.length_append]
        omega

/-- Witness for `wrap_text_greedy`: an 8-word caption wrapped at width 10
with the string-length measurement; the produced lines flatten back to
exactly the caption's words. -/
theorem wrap_text_greedy_witness :
    (wrapTextLines String.length "one two three four five six seven eight" 10).flatten =
      pySplit "one two three four five six seven eight" :=
  (wrap_text_greedy (fun (_ : Unit) s => (s.length, 1)) () 
    "one two three four five six seven eight" 10
    (fun L w hw => length_le_length_joinWords L w hw)).1

/-! ### Claim C2: the fitter's fallback when nothing fits -/

theorem splitOnAux_ne_nil (s sep : String) (b i j : String.Pos) (r : List String) :
    String.splitOnAux s sep b i j r ≠ [] := by
  induction b, i, j, r using String.splitOnAux.induct s sep with
  | case1 b i j r h =>
    rw [String.splitOnAux, if_pos h]
    simp
  | case2 b i j r h1 h2 i1 j1 h3 ih =>
    have h3' : sep.atEnd (sep.next j) = true := h3
    rw [String.splitOnAux, if_neg h1, if_pos h2, if_pos h3']
    exact ih
  | case3 b i j r h1 h2 i1 j1 h3 ih =>
    have h3' : ¬ sep.atEnd (sep.next j) = true := h3
    rw [String.splitOnAux, if_neg h1, if_pos h2, if_neg h3']
    exact ih
  | case4 b i j r h1 h2 ih =>
    rw [String.splitOnAux, if_neg h1, if_neg h2]
    exact ih

/-- Splitting never returns an empty list (so the wrapped text always
counts at least one line in `fit_text_to_bbox`). -/
theorem splitOn_ne_nil (s sep : String) : s.splitOn sep ≠ [] := by
  rw [String.splitOn]
  by_cases h : sep == ""
  · simp [h]
  · simp only [h, if_false]
    exact splitOnAux_ne_nil s sep 0 0 0 []

theorem fitLoop_fallback {F : Type} (loadFont : ℕ → Option F)
    (measure : F → String → ℕ × ℕ) (text : String) (f0 : F) (bw bh : ℕ) :
    ∀ sizes : List ℕ,
      (∀ size ∈ sizes,
        ¬((measure ((loadFont size).getD f0) text).1 ≤ bw ∧
          (measure ((loadFont size).getD f0) text).2 ≤ bh) ∧
        ¬(((wrap_text measure text (some ((loadFont size).getD f0)) bw).splitOn
            "\n").length * (measure ((loadFont size).getD f0) text).2 ≤ bh)) →
      fitLoop loadFont measure text f0 bw bh sizes =
        (wrap_text measure text (some f0) bw, some f0) := by
  intro sizes
  induction sizes with
  | nil => intro _; rfl
  | cons size rest ih =>
    intro h
    obtain ⟨h1, h2⟩ := h size (List.mem_cons_self _ _)
    simp only [fitLoop]
    rw [if_neg h1, if_neg h2]
    exact ih fun s hs => h s (List.mem_cons_of_mem _ hs)

/-- Claim C2 (amended): if no candidate font size makes the text fit
(neither as a single line nor wrapped within the box height), then
`fit_text_to_bbox` returns the greedy word-wrap of the text computed with
the **original** `font` argument - not with the smallest candidate size -
together with that original font; being a total function of the same
structure as the Python code, it never raises. -/
theorem fit_text_fallback {F : Type} (loadFont : ℕ → Option F)
    (measure : F → String → ℕ × ℕ) (text : String) (f0 : F) (bw bh : ℕ)
    (hnofit : ∀ size ∈ fontSizes,
      ¬((measure ((loadFont size).getD f0) text).1 ≤ bw ∧
        (measure ((loadFont size).getD f0) text).2 ≤ bh) ∧
      ¬(((wrap_text measure text (some ((loadFont size).getD f0)) bw).splitOn
          "\n").length * (measure ((loadFont size).getD f0) text).2 ≤ bh)) :
    fit_text_to_bbox loadFont measure text (some f0) bw bh =
      (wrap_text measure text (some f0) bw, some f0) := by
  unfold fit_text_to_bbox
  exact fitLoop_fallback loadFont measure text f0 bw bh fontSizes hnofit

/-- Measurement used by the fallback demonstrations: every font loads
(`loadFont = some`), the preloaded font is `0`, a line measures
`(length, 1)` under font `0` and `(0, 1)` under any candidate font. -/
def demoMeasure : ℕ → String → ℕ × ℕ :=
  fun f s => (if f = 0 then s.length else 0, 1)

theorem demo_nofit : ∀ size ∈ fontSizes,
    ¬((demoMeasure ((some size).getD 0) "a b").1 ≤ 1 ∧
      (demoMeasure ((some size).getD 0) "a b").2 ≤ 0) ∧
    ¬(((wrap_text demoMeasure "a b" (some ((some size).getD 0)) 1).splitOn
        "\n").length * (demoMeasure ((some size).getD 0) "a b").2 ≤ 0) := by
  intro size hs
  constructor
  · intro hcon
    have h2 : (demoMeasure ((some size).getD 0) "a b").2 = 1 := rfl
    rw [h2] at hcon
    exact absurd hcon.2 (by norm_num)
  · intro hcon
    have h2 : (demoMeasure ((some size).getD 0) "a b").2 = 1 := rfl
    rw [h2, Nat.mul_one, Nat.le_zero, List.length_eq_zero] at hcon
    exact splitOn_ne_nil _ "\n" hcon

theorem pySplit_demo : pySplit "a b" = ["a", "b"] := by
  unfold pySplit
  rw [String.split_of_valid]
  rfl

/-- Counterexample to claim C2 as stated: with `demoMeasure`, box width 1
and box height 0, no candidate size fits (every line has height 1 > 0), and
the fitter returns the wrap at the **original** font 0, the two-line
`"a\nb"`, whereas the greedy wrap at the smallest candidate size 10 is the
single line `"a b"`. -/
theorem fit_text_fallback_counterexample :
    fit_text_to_bbox some demoMeasure "a b" (some 0) 1 0 = ("a\nb", some 0) ∧
    wrap_text demoMeasure "a b" (some 10) 1 = "a b" ∧
    ("a\nb" : String) ≠ "a b" := by
  have hw0 : wrap_text demoMeasure "a b" (some 0) 1 = "a\nb" := by
    simp only [wrap_text, wrapTextLines, pySplit_demo]
    rfl
  have hw10 : wrap_text demoMeasure "a b" (some 10) 1 = "a b" := by
    simp only [wrap_text, wrapTextLines, pySplit_demo]
    rfl
  refine ⟨?_, hw10, by decide⟩
  have h := fitLoop_fallback some demoMeasure "a b" 0 1 0 fontSizes demo_nofit
  show fitLoop some demoMeasure "a b" 0 1 0 fontSizes = ("a\nb", some 0)
  rw [h, hw0]

/-- Witness for `fit_text_fallback`: the concrete no-fit instance above,
where the fitter indeed returns the wrap at the original font. -/
theorem fit_text_fallback_witness :
    fit_text_to_bbox some demoMeasure "a b" (some 0) 1 0 =
      (wrap_text demoMeasure "a b" (some 0) 1, some 0) :=
  fit_text_fallback some demoMeasure "a b" 0 1 0 demo_nofit

/-! ### Claim C5: the out-of-bounds audit -/

theorem analyzeOOB_foldl_eq :
    ∀ (boxes : BoxMap) (acc : List String),
      boxes.foldl (fun issues nb =>
        if nb.2.left < 0 ∨ nb.2.right > 1 ∨ nb.2.top < 0 ∨ nb.2.bottom > 1 then
          issues ++ [nb.1 ++ " extends outside image bounds"]
        else issues) acc =
      acc ++ (boxes.filter (fun nb =>
        decide (nb.2.left < 0 ∨ nb.2.right > 1 ∨ nb.2.top < 0 ∨ nb.2.bottom > 1))).map
          (fun nb => nb.1 ++ " extends outside image bounds") := by
  intro boxes
  induction boxes with
  | nil => intro acc; simp
  | cons nb boxes ih =>
    intro acc
    simp only [List.foldl_cons, List.filter_cons]
    by_cases h : nb.2.left < 0 ∨ nb.2.right > 1 ∨ nb.2.top < 0 ∨ nb.2.bottom > 1
    · rw [if_pos h, ih]
      simp [h]
    · rw [if_neg h, ih]
      simp [h]

/-- Claim C5 (amended): both out-of-bounds checks test the four edge
inequalities, but they report differently.  `analyze_meme_boxes` emits a
**single** textual issue per box that violates *any* edge, with no numeric
detail (so it is the box filter mapped to one fixed message).  The
standalone `check_box_bounds` emits one issue per violated edge, each
carrying the violated edge's name and that edge's coordinate (not the
overshoot), plus the meme and box names. -/
theorem audit_out_of_bounds_check (boxes : BoxMap) (b : Box) (n m : String) :
    analyzeOutOfBoundsIssues boxes =
      (boxes.filter (fun nb =>
        decide (nb.2.left < 0 ∨ nb.2.right > 1 ∨ nb.2.top < 0 ∨ nb.2.bottom > 1))).map
        (fun nb => nb.1 ++ " extends outside image bounds") ∧
    (check_box_bounds b n m).map (fun i => (i.edge, i.value)) = violatedEdges b ∧
    ∀ i ∈ check_box_bounds b n m, i.meme = m ∧ i.box = n := by
  refine ⟨analyzeOOB_foldl_eq boxes [], ?_, ?_⟩
  · unfold check_box_bounds violatedEdges
    split_ifs <;> rfl
  · intro i hi
    unfold check_box_bounds at hi
    split_ifs at hi <;> simp_all <;> rcases hi with rfl | rfl | rfl | rfl <;> simp_all

/-- Counterexample to claim C5 as stated: a box violating two edges (left
and right) gets exactly **one** issue from `analyze_meme_boxes`, not one
per violated edge, and that issue carries no numeric overshoot. -/
theorem audit_one_issue_per_box_counterexample :
    analyzeOutOfBoundsIssues [("wide", ⟨1/2, 1/2, 3/2, 1/2⟩)] =
      ["wide extends outside image bounds"] ∧
    (⟨1/2, 1/2, 3/2, 1/2⟩ : Box).left < 0 ∧ (⟨1/2, 1/2, 3/2, 1/2⟩ : Box).right > 1 := by
  refine ⟨?_, by norm_num [Box.left], by norm_num [Box.right]⟩
  unfold analyzeOutOfBoundsIssues
  norm_num [Box.left, Box.right, Box.top, Box.bottom]
  rfl

/-- Witness for `audit_out_of_bounds_check`: on a box sticking out on both
sides, `check_box_bounds` emits exactly the violated-edges list, one entry
per violated edge with that edge's coordinate. -/
theorem audit_out_of_bounds_check_witness :
    (check_box_bounds ⟨1/2, 1/2, 3/2, 1/2⟩ "wide" "meme").map (fun i => (i.edge, i.value)) =
      violatedEdges ⟨1/2, 1/2, 3/2, 1/2⟩ :=
  (audit_out_of_bounds_check [] ⟨1/2, 1/2, 3/2, 1/2⟩ "wide" "meme").2.1

/-! ### Claim C8: collision-free template names via suffix counters -/

theorem digitChar_inj_lt {a c : ℕ} (ha : a < 10) (hc : c < 10)
    (h : Nat.digitChar a = Nat.digitChar c) : a = c := by
  interval_cases a <;> interval_cases c <;> first | rfl | exact absurd h (by decide)

theorem toDigitsCore_ten :
    ∀ (fuel n : ℕ) (ds : List Char), 0 < n → n < fuel →
      Nat.toDigitsCore 10 fuel n ds =
        ((Nat.digits 10 n).map Nat.digitChar).reverse ++ ds := by
  intro fuel
  induction fuel with
  | zero => intro n ds _ h; omega
  | succ fuel ih =>
    intro n ds hn h
    have hdig : Nat.digits 10 n = n % 10 :: Nat.digits 10 (n / 10) :=
      Nat.digits_def' (by norm_num) hn
    rw [Nat.toDigitsCore]
    by_cases hr : n / 10 = 0
    · rw [if_pos hr, hdig, hr]
      simp
    · rw [if_neg hr]
      have hdivlt : n / 10 < n := Nat.div_lt_self hn (by norm_num)
      rw [ih (n / 10) _ (Nat.pos_of_ne_zero hr) (by omega)]
      rw [hdig]
      simp

theorem toDigits_ten (n : ℕ) :
    Nat.toDigits 10 n =
      if n = 0 then ['0'] else ((Nat.digits 10 n).map Nat.digitChar).reverse := by
  by_cases h : n = 0
  · subst h; rfl
  · rw [if_neg h]
    have := toDigitsCore_ten (n + 1) n [] (Nat.pos_of_ne_zero h) (Nat.lt_succ_self n)
    simpa [Nat.toDigits] using this

theorem map_digitChar_inj :
    ∀ l1 l2 : List ℕ, (∀ d ∈ l1, d < 10) → (∀ d ∈ l2, d < 10) →
      l1.map Nat.digitChar = l2.map Nat.digitChar → l1 = l2 := by
  intro l1
  induction l1 with
  | nil =>
    intro l2 _ _ h
    cases l2 with
    | nil => rfl
    | cons c t2 => exact absurd h (by simp)
  | cons a t ih =>
    intro l2 h1 h2 h
    cases l2 with
    | nil => exact absurd h (by simp)
    | cons c t2 =>
      simp only [List.map_cons, List.cons.injEq] at h
      have ha : a = c := digitChar_inj_lt (h1 a (List.mem_cons_self a t))
        (h2 c (List.mem_cons_self c t2)) h.1
      rw [ha, ih t2 (fun d hd => h1 d (List.mem_cons_of_mem a hd))
        (fun d hd => h2 d (List.mem_cons_of_mem c hd)) h.2]

theorem digits_map_ne_zero_list {c : ℕ} (hc : c ≠ 0) :
    ((Nat.digits 10 c).map Nat.digitChar).reverse ≠ ['0'] := by
  intro h
  have hmap : (Nat.digits 10 c).map Nat.digitChar = ['0'] := by
    have := congrArg List.reverse h
    simpa using this
  cases hd : Nat.digits 10 c with
  | nil => rw [hd] at hmap; exact absurd hmap (by simp)
  | cons d t =>
    rw [hd] at hmap
    cases t with
    | cons e t2 => exact absurd hmap (by simp)
    | nil =>
      simp only [List.map_cons, List.map_nil, List.cons.injEq, and_true] at hmap
      have hdmem : d ∈ Nat.digits 10 c := by
        rw [hd]; exact List.mem_cons_self d []
      have hd10 : d < 10 := Nat.digits_lt_base (by norm_num) hdmem
      have hd0 : d = 0 := digitChar_inj_lt hd10 (by norm_num) (by simpa using hmap)
      have := congrArg (Nat.ofDigits 10) hd
      rw [Nat.ofDigits_digits, hd0] at this
      simp [Nat.ofDigits] at this
      exact hc this

theorem natRepr_injective : Function.Injective Nat.repr := by
  intro a c h
  have h' : Nat.toDigits 10 a = Nat.toDigits 10 c := by
    have hd := congrArg String.data h
    simpa [Nat.repr, List.asString] using hd
  rw [toDigits_ten, toDigits_ten] at h'
  by_cases ha : a = 0 <;> by_cases hc : c = 0
  · rw [ha, hc]
  · rw [if_pos ha, if_neg hc] at h'
    exact absurd h'.symm (digits_map_ne_zero_list hc)
  · rw [if_neg ha, if_pos hc] at h'
    exact absurd h' (digits_map_ne_zero_list ha)
  · rw [if_neg ha, if_neg hc] at h'
    have hmap : (Nat.digits 10 a).map Nat.digitChar = (Nat.digits 10 c).map Nat.digitChar := by
      have := congrArg List.reverse h'
      simpa using this
    have hdig : Nat.digits 10 a = Nat.digits 10 c :=
      map_digitChar_inj _ _ (fun d hd => Nat.digits_lt_base (by norm_num) hd)
        (fun d hd => Nat.digits_lt_base (by norm_num) hd) hmap
    have := congrArg (Nat.ofDigits 10) hdig
    rwa [Nat.ofDigits_digits, Nat.ofDigits_digits] at this

theorem candidateName_inj (base : String) :
    ∀ i j : ℕ, candidateName base i = candidateName base j → i = j := by
  intro i j h
  unfold candidateName at h
  have hd := congrArg String.data h
  simp only [String.data_append] at hd
  have hrepr : Nat.repr i = Nat.repr j := by
    apply String.ext
    exact List.append_cancel_left hd
  exact natRepr_injective hrepr

theorem base_ne_candidateName (base : String) (k : ℕ) : base ≠ candidateName base k := by
  intro h
  have := congrArg String.length h
  unfold candidateName at this
  rw [String.length_append, String.length_append] at this
  have h1 : ("_" : String).length = 1 := rfl
  omega

theorem least_counter_le_length (existing : List String) (base : String) (k : ℕ)
    (hcol : base ∈ existing) (hk : 1 ≤ k)
    (hmin : ∀ j : ℕ, 1 ≤ j → j < k → candidateName base j ∈ existing) :
    k ≤ existing.length := by
  classical
  have hsub : ∀ x ∈ base :: (List.range (k - 1)).map (fun t => candidateName base (t + 1)),
      x ∈ existing := by
    intro x hx
    rcases List.mem_cons.mp hx with rfl | hx2
    · exact hcol
    · obtain ⟨t, ht, rfl⟩ := List.mem_map.mp hx2
      rw [List.mem_range] at ht
      exact hmin (t + 1) (by omega) (by omega)
  have hnd : (base :: (List.range (k - 1)).map (fun t => candidateName base (t + 1))).Nodup := by
    refine List.nodup_cons.mpr ⟨?_, ?_⟩
    · intro hmem
      obtain ⟨t, _, heq⟩ := List.mem_map.mp hmem
      exact base_ne_candidateName base (t + 1) heq.symm
    · refine List.Nodup.map ?_ (List.nodup_range (k - 1))
      intro i j hij
      have := candidateName_inj base (i + 1) (j + 1) hij
      omega
  have hlen : (base :: (List.range (k - 1)).map (fun t => candidateName base (t + 1))).length
      = k := by
    simp only [List.length_cons, List.length_map, List.length_range]
    omega
  have hcard : (base :: (List.range (k - 1)).map
      (fun t => candidateName base (t + 1))).toFinset.card ≤ existing.toFinset.card := by
    apply Finset.card_le_card
    intro x hx
    rw [List.mem_toFinset] at hx ⊢
    exact hsub x hx
  rw [List.toFinset_card_of_nodup hnd, hlen] at hcard
  exact hcard.trans (List.toFinset_card_le existing)

theorem uniquifyGo_finds (existing : List String) (base : String) (k : ℕ)
    (hfree : candidateName base k ∉ existing)
    (hmin : ∀ j : ℕ, 1 ≤ j → j < k → candidateName base j ∈ existing) :
    ∀ (fuel c : ℕ), 1 ≤ c → c ≤ k → k - c < fuel →
      uniquifyGo existing base fuel (c + 1) (candidateName base c) =
        candidateName base k := by
  intro fuel
  induction fuel with
  | zero => intro c _ _ h; omega
  | succ fuel ih =>
    intro c hc1 hck h
    by_cases hck2 : c = k
    · subst hck2
      simp only [uniquifyGo]
      rw [if_neg hfree]
    · have hlt : c < k := lt_of_le_of_ne hck hck2
      have hcol : candidateName base c ∈ existing := hmin c hc1 hlt
      simp only [uniquifyGo]
      rw [if_pos hcol]
      exact ih (c + 1) (by omega) (by omega) (by omega)

/-- Claim C8: when the cleaned template name collides with an existing
template's name, the persisted name chosen by `save_new_template` is the
cleaned name suffixed with the smallest positive counter whose candidate
`f"{base}_{counter}"` does not collide with any existing name; collisions
are resolved automatically (the loop always reaches that free candidate
within its fuel), never rejected. -/
theorem resolve_template_name_least (existing : List String) (raw : String) (k : ℕ)
    (hcol : cleanName raw ∈ existing) (hk : 1 ≤ k)
    (hfree : candidateName (cleanName raw) k ∉ existing)
    (hmin : ∀ j : ℕ, 1 ≤ j → j < k → candidateName (cleanName raw) j ∈ existing) :
    resolve_template_name existing raw = candidateName (cleanName raw) k := by
  have hkle : k ≤ existing.length :=
    least_counter_le_length existing (cleanName raw) k hcol hk hmin
  unfold resolve_template_name
  simp only [uniquifyGo]
  rw [if_pos hcol]
  exact uniquifyGo_finds existing (cleanName raw) k hfree hmin existing.length 1
    (Nat.le_refl 1) hk (by omega)

/-- Witness for `resolve_template_name_least`: the cleaned name and its
first suffixed candidate are both taken, so the persisted name is the
candidate with counter 2 (hypotheses discharged purely through the
injectivity of the candidate naming, no string computation needed). -/
theorem resolve_template_name_least_witness :
    resolve_template_name [cleanName "Meme", candidateName (cleanName "Meme") 1] "Meme" =
      candidateName (cleanName "Meme") 2 :=
  resolve_template_name_least [cleanName "Meme", candidateName (cleanName "Meme") 1]
    "Meme" 2 (List.mem_cons_self _ _) (by omega)
    (by
      intro hmem
      rcases List.mem_cons.mp hmem with h | h
      · exact base_ne_candidateName (cleanName "Meme") 2 h.symm
      · rcases List.mem_cons.mp h with h2 | h2
        · have := candidateName_inj (cleanName "Meme") 2 1 h2
          omega
        · exact absurd h2 (List.not_mem_nil _))
    (by
      intro j h1 h2
      have hj : j = 1 := by omega
      subst hj
      exact List.mem_cons_of_mem _ (List.mem_cons_self _ _))
